import Mathlib

/-!
Shallow embedding of `src/dna/comparator.hpp` (the DNA comparison engine):
the telomere trimmer `Comparator::getDataRange`, the sex classifier
`Comparator::getSex`, and the orchestration `Comparator::compare`, together
with the stream/person capability model the comparator is written against.

The Helix-Stream collaborator itself is not part of the repository's sources;
its capability contract (`seek` / `read` / `size`, bases packed into storage
units, implementation-defined chunk size) is modelled from the specification.
`getDataRange` reads a single chunk at the start (`helix.seek(0); helix.read()`)
and then indexes only into that chunk; an access past the chunk's end is
undefined behaviour in the C++ and is modelled here by `Option`: the value
`none` marks an execution that indexed past the bound of the chunk.
-/

set_option maxHeartbeats 1000000

namespace dna

/-- The four nucleotide symbols.  The enumeration itself lives in the
    repository's missing `person.hpp` header; the spec fixes it as {A, C, G, T}. -/
inductive base where
  | A
  | C
  | G
  | T
deriving DecidableEq, Repr

/-- Modelled from the spec: `packed_size::value`, the packed factor N (number of
    bases stored per addressable storage unit).  Its definition is in the
    repository's missing sequence-buffer header; the spec's concrete scenarios
    fix it at 4 bases per unit. -/
def packed_size : Nat := 4

/-- `Comparator::TELOMERE_SEQ`: the fixed sequence of repeating bases in
    telomeres, {T, T, A, G, G, G}. -/
def TELOMERE_SEQ : List base := [.T, .T, .A, .G, .G, .G]

/-- Lookup `TELOMERE_SEQ[i % TELOMERE_SEQ.size()]`; the C++ always indexes this
    array with a value already reduced mod 6, and the extra `%` here makes the
    lookup total without changing any in-range value. -/
def telomereAt (i : Nat) : base := TELOMERE_SEQ.getD (i % TELOMERE_SEQ.length) .A

/-- The forward while-loop of `Comparator::getDataRange` (comparator.hpp,
    lines 129-134): keep advancing `data_start` (and rotating the phase
    `telomere_idx`) while the current base matches the telomere pattern.
    `fuel` is `data_end - data_start`, so `fuel = 0` exactly when the loop
    guard `data_start < data_end` fails.  `buffer[data_start]` past the end of
    the chunk is out of bounds in the C++ and yields `none` here. -/
def scanFrontF (buffer : List base) : Nat → Nat → Nat → Option (Nat × Nat)
  | 0, data_start, phase => some (data_start, phase)
  | fuel + 1, data_start, phase =>
    match buffer[data_start]? with
    | none => none
    | some c =>
      if c = telomereAt phase then
        scanFrontF buffer fuel (data_start + 1) ((phase + 1) % TELOMERE_SEQ.length)
      else
        some (data_start, phase)

/-- The backward while-loop of `Comparator::getDataRange` (lines 163-168):
    keep retreating `data_end` while `buffer[data_end - 1]` matches the
    telomere pattern, rotating the phase backwards.  `fuel` is
    `data_end - data_start`, so `fuel = 0` exactly when the guard
    `data_end > data_start` fails. -/
def scanBackF (buffer : List base) : Nat → Nat → Nat → Option (Nat × Nat)
  | 0, data_end, phase => some (data_end, phase)
  | fuel + 1, data_end, phase =>
    match buffer[data_end - 1]? with
    | none => none
    | some c =>
      if c = telomereAt phase then
        scanBackF buffer fuel (data_end - 1)
          ((TELOMERE_SEQ.length + phase - 1) % TELOMERE_SEQ.length)
      else
        some (data_end, phase)

/-- The inner loop of the front rotation search (lines 112-119): check the
    first `min(6, buffer.size())` bases of the chunk against rotation `t` of
    the telomere pattern.  The C++ guard `b_idx < buffer.size()` keeps every
    access in bounds, so this is total. -/
def frontRotMatch (buffer : List base) (t : Nat) : Bool :=
  (List.range (min TELOMERE_SEQ.length buffer.length)).all fun b =>
    buffer.getD b .A == telomereAt (t + b)

/-- The outer loop of the front rotation search (lines 108-127): the first
    rotation `t ∈ [0, 6)` matching the head of the chunk, if any. -/
def findFrontRot (buffer : List base) : Option Nat :=
  (List.range TELOMERE_SEQ.length).find? (frontRotMatch buffer)

/-- The inner loop of the back rotation search (lines 146-153): check the six
    bases `buffer[data_end - 1 - b]` (b = 0..5) against rotation `t`, pattern
    position `(6 + t - b) % 6`.  The C++ has no bounds guard here; an access
    past the chunk's end yields `none`.  The argument list enumerates the
    b-values the loop has left to visit (`List.range 6` at the call site), and
    the loop breaks at the first mismatching base. -/
def backRotMatchF (buffer : List base) (data_end t : Nat) : List Nat → Option Bool
  | [] => some true
  | b :: bs =>
    match buffer[data_end - 1 - b]? with
    | none => none
    | some c =>
      if c = telomereAt (TELOMERE_SEQ.length + t - b) then
        backRotMatchF buffer data_end t bs
      else
        some false

/-- The outer loop of the back rotation search (lines 143-161): the first
    rotation `t ∈ [0, 6)` matching the tail of the data, if any; `none` marks
    an out-of-bounds chunk access, `some none` that no rotation matched.  The
    argument list enumerates the t-values left to try (`List.range 6` at the
    call site). -/
def findBackRotF (buffer : List base) (data_end : Nat) : List Nat → Option (Option Nat)
  | [] => some none
  | t :: ts =>
    match backRotMatchF buffer data_end t (List.range TELOMERE_SEQ.length) with
    | none => none
    | some true => some (some t)
    | some false => findBackRotF buffer data_end ts

/-- The tail-trimming half of `Comparator::getDataRange` (comparator.hpp,
    lines 136-170), continuing from the loop state `(data_start, telomere_idx
    = phase)` left by the front scan: the early return when fewer than six
    bases remain, the back rotation search (which on no match leaves
    `telomere_idx` at the front scan's leftover phase), and the backward
    while-loop. -/
def getDataRangeBack (buffer : List base) (data_end data_start phase : Nat) :
    Option (Nat × Nat) :=
  if data_end < data_start + TELOMERE_SEQ.length then some (data_start, data_end)
  else
    match findBackRotF buffer data_end (List.range TELOMERE_SEQ.length) with
    | none => none
    | some rot =>
      let back : Nat × Nat :=
        match rot with
        | some t => (data_end - TELOMERE_SEQ.length, t)
        | none => (data_end, phase)
      match scanBackF buffer (back.1 - data_start) back.1 back.2 with
      | none => none
      | some (new_end, _) => some (data_start, new_end)

/-- `Comparator::getDataRange` (comparator.hpp, lines 77-171) over a stream
    whose whole base sequence is `seq` and whose `read()` yields a chunk of at
    most `chunk` bases: returns the `[start, end)` base-index range between the
    telomeres.  `data_end` starts at `helix.size() * packed_size::value`, which
    is exactly the number of bases in the stream.  The single chunk obtained by
    `helix.seek(0); helix.read()` is `seq.take chunk`; `none` marks an
    execution that indexed past the end of that chunk (undefined behaviour in
    the C++). -/
def getDataRange (seq : List base) (chunk : Nat) : Option (Nat × Nat) :=
  let data_end := seq.length
  if data_end < TELOMERE_SEQ.length then some (0, data_end)
  else
    let buffer := seq.take chunk
    let front : Nat × Nat :=
      match findFrontRot buffer with
      | some t => (TELOMERE_SEQ.length, t)
      | none => (0, 0)
    match scanFrontF buffer (data_end - front.1) front.1 front.2 with
    | none => none
    | some (data_start, phase) => getDataRangeBack buffer data_end data_start phase

/-- `Comparator::SexChromosome`; `MAX` is the sentinel "unclassifiable" value
    (the spec's `Unknown`). -/
inductive SexChromosome where
  | X
  | Y
  | MAX
deriving DecidableEq, Repr

/-- `Comparator::X_CHROMOSOME_LEN`. -/
def X_CHROMOSOME_LEN : Nat := 156000000

/-- `Comparator::Y_CHROMOSOME_LEN`. -/
def Y_CHROMOSOME_LEN : Nat := 57000000

/-- `Comparator::getSex` (lines 55-72), as a function of `helix.size()` (the
    storage-unit count): classify by `helix_len = size * packed_size`. -/
def getSex (size : Nat) : SexChromosome :=
  let helix_len := size * packed_size
  if 4 * X_CHROMOSOME_LEN / 5 < helix_len ∧ helix_len < 5 * X_CHROMOSOME_LEN / 4 then
    SexChromosome.X
  else if 4 * Y_CHROMOSOME_LEN / 5 < helix_len ∧ helix_len < 5 * Y_CHROMOSOME_LEN / 4 then
    SexChromosome.Y
  else
    SexChromosome.MAX

/-- Modelled from the spec: a Helix Stream, the seekable chunked source of one
    chromosome's bases (spec §6).  `units` is the packed storage (one unit =
    `packed_size` bases, as `dna::pack` builds in the test fixtures); `chunk`
    is the implementation-defined chunk size of `read()`, in bases. -/
structure HelixStream where
  units : List (base × base × base × base)
  chunk : Nat

/-- The stream's base sequence, in order: each storage unit unpacked into its
    four bases. -/
def HelixStream.seqBases (h : HelixStream) : List base :=
  h.units.flatMap fun u => [u.1, u.2.1, u.2.2.1, u.2.2.2]

/-- `size()`: total storage units. -/
def HelixStream.size (h : HelixStream) : Nat := h.units.length

/-- Modelled from the spec: the Person capability (spec §6):
    `chromosomes() -> count`, `chromosome(index) -> Helix Stream`. -/
structure Person where
  chromosomes : Nat
  chromosome : Nat → HelixStream

/-- `dna::Difference`: one divergent region (chromosome index plus a `[start,
    end)` subsection in each sample). -/
structure Difference where
  chromosome_idx : Nat
  person_a : Nat × Nat
  person_b : Nat × Nat
deriving DecidableEq, Repr

/-- `Comparator::NUM_CHROMOSOMES`. -/
def NUM_CHROMOSOMES : Nat := 23

/-- `Comparator::SEX_CHROMOSOME_IDX`. -/
def SEX_CHROMOSOME_IDX : Nat := 22

/-- One iteration of the per-chromosome loop of `Comparator::compare`
    (lines 185-213): obtain both streams; at the sex-chromosome index skip
    (`continue`) when the classifications differ or sample A's is MAX;
    otherwise trim both streams with `getDataRange` (whose results the
    unfinished differencer then discards, leaving `ret` untouched).  `none`
    propagates an out-of-bounds chunk access inside `getDataRange`. -/
def compareStep (a b : Person) (acc : List Difference) (chromosome_idx : Nat) :
    Option (List Difference) :=
  let helix_a := a.chromosome chromosome_idx
  let helix_b := b.chromosome chromosome_idx
  if chromosome_idx = SEX_CHROMOSOME_IDX ∧
      (getSex helix_a.size ≠ getSex helix_b.size ∨ getSex helix_a.size = SexChromosome.MAX) then
    some acc
  else
    match getDataRange helix_a.seqBases helix_a.chunk with
    | none => none
    | some _ =>
      match getDataRange helix_b.seqBases helix_b.chunk with
      | none => none
      | some _ => some acc

/-- `Comparator::compare` (lines 176-216): reject persons not reporting exactly
    `NUM_CHROMOSOMES` chromosomes with `std::invalid_argument` (before any
    stream is obtained), otherwise run the per-chromosome loop over indices
    0..22 in order.  The outer `Option` marks out-of-bounds chunk accesses
    (undefined behaviour), the `Except` carries the InvalidInput error. -/
def compare (a b : Person) : Option (Except String (List Difference)) :=
  if a.chromosomes ≠ NUM_CHROMOSOMES ∨ b.chromosomes ≠ NUM_CHROMOSOMES then
    some (Except.error "chromosome data does not match expected size")
  else
    ((List.range NUM_CHROMOSOMES).foldlM (compareStep a b) []).map Except.ok

/-- `K` back-to-back full telomere periods, as a base list. -/
def telN : Nat → List base
  | 0 => []
  | n + 1 => TELOMERE_SEQ ++ telN n

/-- The packed storage units of the test fixture "Partial telomeres at start
    and end; small helix buffer chunk size" (comparator_test.cpp, lines
    198-209). -/
def c1_units : List (base × base × base × base) :=
  [(.G, .G, .T, .T), (.A, .G, .G, .G), (.T, .T, .A, .G), (.G, .G, .T, .T),
   (.A, .G, .G, .G), (.C, .C, .C, .C), (.C, .C, .C, .C), (.C, .C, .T, .T),
   (.A, .G, .G, .G), (.T, .T, .A, .G), (.G, .G, .T, .T)]

/-- The 44-base sequence of that fixture. -/
def c1_input : List base :=
  [.G, .G, .T, .T, .A, .G, .G, .G, .T, .T, .A, .G, .G, .G, .T, .T,
   .A, .G, .G, .G, .C, .C, .C, .C, .C, .C, .C, .C, .C, .C, .T, .T,
   .A, .G, .G, .G, .T, .T, .A, .G, .G, .G, .T, .T]

/-- An 8-base sequence whose head matches no rotation of the telomere pattern
    yet begins with the single pattern base T. -/
def c4_input : List base := [.T, .C, .C, .C, .C, .C, .C, .C]

/-- One full leading telomere period followed by interior data `TCCCCC` (which
    does not begin or end with a further full pattern period). -/
def c3_counter_input : List base :=
  [.T, .T, .A, .G, .G, .G, .T, .C, .C, .C, .C, .C]

/-- A stream with no data at all. -/
def emptyHelix : HelixStream := ⟨[], 0⟩

/-- The small-chunk fixture stream: 11 storage units, chunk size 4 bases
    (the test's `fake_stream helix(data, 1)`, one storage unit per `read()`). -/
def smallChunkHelix : HelixStream := ⟨c1_units, 4⟩

/-- A 23-chromosome person whose chromosome 0 is the small-chunk fixture. -/
def personSmallChunk : Person := ⟨23, fun i => if i = 0 then smallChunkHelix else emptyHelix⟩

/-- A 23-chromosome person with all streams empty. -/
def personEmpty : Person := ⟨23, fun _ => emptyHelix⟩

/-- A person reporting only 22 chromosomes. -/
def personEmpty22 : Person := ⟨22, fun _ => emptyHelix⟩

/-! ### Basic facts about the telomere pattern -/

theorem length_TELOMERE : TELOMERE_SEQ.length = 6 := rfl

theorem telomereAt_congr {i j : Nat} (h : i % 6 = j % 6) : telomereAt i = telomereAt j := by
  unfold telomereAt
  rw [length_TELOMERE, h]

theorem telomereAt_ne_C (i : Nat) : telomereAt i ≠ base.C := by
  unfold telomereAt
  rw [length_TELOMERE]
  have h6 : i % 6 < 6 := Nat.mod_lt _ (by omega)
  set r := i % 6 with hr
  interval_cases r <;> decide

/-! ### The forward scan -/

theorem scanFrontF_stop {buffer : List base} {fuel ds ph : Nat} {c : base}
    (hfuel : 0 < fuel) (hc : buffer[ds]? = some c) (hne : c ≠ telomereAt ph) :
    scanFrontF buffer fuel ds ph = some (ds, ph) := by
  cases fuel with
  | zero => omega
  | succ f => simp [scanFrontF, hc, hne]

theorem scanFrontF_step {buffer : List base} {fuel ds ph : Nat}
    (hc : buffer[ds]? = some (telomereAt ph)) :
    scanFrontF buffer (fuel + 1) ds ph = scanFrontF buffer fuel (ds + 1) ((ph + 1) % 6) := by
  simp [scanFrontF, hc, length_TELOMERE]

theorem scanFrontF_advance {buffer : List base} :
    ∀ (cnt fuel ds ph : Nat), cnt ≤ fuel → ph < 6 →
    (∀ i, i < cnt → buffer[ds + i]? = some (telomereAt (ph + i))) →
    scanFrontF buffer fuel ds ph = scanFrontF buffer (fuel - cnt) (ds + cnt) ((ph + cnt) % 6) := by
  intro cnt
  induction cnt with
  | zero =>
    intro fuel ds ph _ hph _
    simp [Nat.mod_eq_of_lt hph]
  | succ n ih =>
    intro fuel ds ph hcnt hph hmatch
    cases fuel with
    | zero => omega
    | succ f =>
      have h0 : buffer[ds]? = some (telomereAt ph) := by
        have h := hmatch 0 (by omega)
        simpa using h
      rw [scanFrontF_step h0]
      rw [ih f (ds + 1) ((ph + 1) % 6) (by omega) (by omega) ?_]
      · have hmod : ((ph + 1) % 6 + n) % 6 = (ph + (n + 1)) % 6 := by
          rw [Nat.mod_add_mod]; omega
        rw [hmod]
        congr 1 <;> omega
      · intro i hi
        have h := hmatch (i + 1) (by omega)
        have heq : ds + 1 + i = ds + (i + 1) := by omega
        rw [heq, h]
        exact congrArg some (telomereAt_congr (by omega))

theorem scanFrontF_bounds {buffer : List base} :
    ∀ (fuel ds ph ds' ph' : Nat),
    scanFrontF buffer fuel ds ph = some (ds', ph') → ds ≤ ds' ∧ ds' ≤ ds + fuel := by
  intro fuel
  induction fuel with
  | zero =>
    intro ds ph ds' ph' h
    simp [scanFrontF] at h
    omega
  | succ f ih =>
    intro ds ph ds' ph' h
    cases hb : buffer[ds]? with
    | none => simp [scanFrontF, hb] at h
    | some c =>
      by_cases hc : c = telomereAt ph
      · rw [hc] at hb
        rw [scanFrontF_step hb] at h
        have := ih (ds + 1) ((ph + 1) % 6) ds' ph' h
        omega
      · rw [scanFrontF_stop (by omega) hb hc] at h
        simp at h
        omega

theorem scanFrontF_isSome (buffer : List base) :
    ∀ (fuel ds ph : Nat), ds + fuel ≤ buffer.length →
    (scanFrontF buffer fuel ds ph).isSome := by
  intro fuel
  induction fuel with
  | zero => intro ds ph _; simp [scanFrontF]
  | succ f ih =>
    intro ds ph hlen
    have hb : ds < buffer.length := by omega
    simp only [scanFrontF, List.getElem?_eq_getElem hb]
    split
    · exact ih (ds + 1) _ (by omega)
    · simp

/-! ### The backward scan -/

theorem scanBackF_stop {buffer : List base} {fuel de ph : Nat} {c : base}
    (hfuel : 0 < fuel) (hc : buffer[de - 1]? = some c) (hne : c ≠ telomereAt ph) :
    scanBackF buffer fuel de ph = some (de, ph) := by
  cases fuel with
  | zero => omega
  | succ f => simp [scanBackF, hc, hne]

theorem scanBackF_step {buffer : List base} {fuel de ph : Nat}
    (hc : buffer[de - 1]? = some (telomereAt ph)) :
    scanBackF buffer (fuel + 1) de ph = scanBackF buffer fuel (de - 1) ((6 + ph - 1) % 6) := by
  simp [scanBackF, hc, length_TELOMERE]

theorem scanBackF_advance {buffer : List base} :
    ∀ (cnt fuel de ph : Nat), cnt ≤ fuel → ph < 6 →
    (∀ i, i < cnt → buffer[de - 1 - i]? = some (telomereAt (ph + 5 * i))) →
    scanBackF buffer fuel de ph = scanBackF buffer (fuel - cnt) (de - cnt) ((ph + 5 * cnt) % 6) := by
  intro cnt
  induction cnt with
  | zero =>
    intro fuel de ph _ hph _
    simp [Nat.mod_eq_of_lt hph]
  | succ n ih =>
    intro fuel de ph hcnt hph hmatch
    cases fuel with
    | zero => omega
    | succ f =>
      have h0 : buffer[de - 1]? = some (telomereAt ph) := by
        have h := hmatch 0 (by omega)
        simpa using h
      rw [scanBackF_step h0]
      rw [ih f (de - 1) ((6 + ph - 1) % 6) (by omega) (by omega) ?_]
      · have hmod : ((6 + ph - 1) % 6 + 5 * n) % 6 = (ph + 5 * (n + 1)) % 6 := by
          rw [Nat.mod_add_mod]; omega
        rw [hmod]
        congr 1 <;> omega
      · intro i hi
        have h := hmatch (i + 1) (by omega)
        have heq : de - 1 - 1 - i = de - 1 - (i + 1) := by omega
        rw [heq, h]
        exact congrArg some (telomereAt_congr (by omega))

theorem scanBackF_bounds {buffer : List base} :
    ∀ (fuel de ph de' ph' : Nat),
    scanBackF buffer fuel de ph = some (de', ph') → de - fuel ≤ de' ∧ de' ≤ de := by
  intro fuel
  induction fuel with
  | zero =>
    intro de ph de' ph' h
    simp [scanBackF] at h
    omega
  | succ f ih =>
    intro de ph de' ph' h
    cases hb : buffer[de - 1]? with
    | none => simp [scanBackF, hb] at h
    | some c =>
      by_cases hc : c = telomereAt ph
      · rw [hc] at hb
        rw [scanBackF_step hb] at h
        have := ih (de - 1) ((6 + ph - 1) % 6) de' ph' h
        omega
      · rw [scanBackF_stop (by omega) hb hc] at h
        simp at h
        omega

theorem scanBackF_isSome (buffer : List base) :
    ∀ (fuel de ph : Nat), fuel ≤ de → de ≤ buffer.length →
    (scanBackF buffer fuel de ph).isSome := by
  intro fuel
  induction fuel with
  | zero => intro de ph _ _; simp [scanBackF]
  | succ f ih =>
    intro de ph hde hlen
    have hb : de - 1 < buffer.length := by omega
    simp only [scanBackF, List.getElem?_eq_getElem hb]
    split
    · exact ih (de - 1) _ (by omega) (by omega)
    · simp

/-! ### The front rotation search -/

theorem frontRotMatch_zero_of_head {buffer : List base}
    (h0 : buffer[0]? = some base.T) (h1 : buffer[1]? = some base.T)
    (h2 : buffer[2]? = some base.A) (h3 : buffer[3]? = some base.G)
    (h4 : buffer[4]? = some base.G) (h5 : buffer[5]? = some base.G) :
    frontRotMatch buffer 0 = true := by
  have hlen : 6 ≤ buffer.length := by
    obtain ⟨h, -⟩ := List.getElem?_eq_some_iff.mp h5
    omega
  unfold frontRotMatch
  rw [length_TELOMERE, show min 6 buffer.length = 6 by omega,
      show List.range 6 = [0, 1, 2, 3, 4, 5] from rfl]
  simp [List.getD_eq_getElem?_getD, h0, h1, h2, h3, h4, h5,
        show telomereAt 0 = base.T from rfl, show telomereAt 1 = base.T from rfl,
        show telomereAt 2 = base.A from rfl, show telomereAt 3 = base.G from rfl,
        show telomereAt 4 = base.G from rfl, show telomereAt 5 = base.G from rfl]

theorem findFrontRot_of_telomere_head {buffer : List base}
    (h0 : buffer[0]? = some base.T) (h1 : buffer[1]? = some base.T)
    (h2 : buffer[2]? = some base.A) (h3 : buffer[3]? = some base.G)
    (h4 : buffer[4]? = some base.G) (h5 : buffer[5]? = some base.G) :
    findFrontRot buffer = some 0 := by
  have hm := frontRotMatch_zero_of_head h0 h1 h2 h3 h4 h5
  unfold findFrontRot
  rw [length_TELOMERE, show List.range 6 = 0 :: [1, 2, 3, 4, 5] from rfl,
      List.find?_cons, hm]

theorem frontRotMatch_false_of_head_C {buffer : List base}
    (h0 : buffer[0]? = some base.C) (t : Nat) :
    frontRotMatch buffer t = false := by
  have hlen : 0 < buffer.length := by
    obtain ⟨h, -⟩ := List.getElem?_eq_some_iff.mp h0
    omega
  unfold frontRotMatch
  refine List.all_eq_false.mpr ⟨0, ?_, ?_⟩
  · rw [List.mem_range, length_TELOMERE]
    omega
  · simp only [List.getD_eq_getElem?_getD, h0, Option.getD_some, beq_iff_eq]
    exact fun h => telomereAt_ne_C _ h.symm

theorem findFrontRot_none_of_head_C {buffer : List base}
    (h0 : buffer[0]? = some base.C) :
    findFrontRot buffer = none := by
  unfold findFrontRot
  rw [List.find?_eq_none]
  intro t _
  rw [frontRotMatch_false_of_head_C h0 t]
  simp

/-! ### The back rotation search -/

theorem backRotMatchF_isSome {buffer : List base} {de t : Nat} :
    ∀ (bs : List Nat), (∀ b ∈ bs, de - 1 - b < buffer.length) →
    (backRotMatchF buffer de t bs).isSome := by
  intro bs
  induction bs with
  | nil => intro _; simp [backRotMatchF]
  | cons b bs ih =>
    intro h
    have hb : de - 1 - b < buffer.length := h b (by simp)
    simp only [backRotMatchF, List.getElem?_eq_getElem hb]
    split
    · exact ih fun x hx => h x (by simp [hx])
    · simp

theorem findBackRotF_isSome (buffer : List base) (de : Nat) :
    ∀ (ts : List Nat), de - 1 < buffer.length →
    (findBackRotF buffer de ts).isSome := by
  intro ts
  induction ts with
  | nil => intro _; simp [findBackRotF]
  | cons t ts ih =>
    intro h
    have hm : (backRotMatchF buffer de t (List.range TELOMERE_SEQ.length)).isSome :=
      backRotMatchF_isSome _ (fun b _ => by omega)
    obtain ⟨r, hr⟩ := Option.isSome_iff_exists.mp hm
    cases r with
    | true => simp [findBackRotF, hr]
    | false =>
      simp only [findBackRotF, hr]
      exact ih h

theorem findBackRot_of_telomere_tail {buffer : List base} (idx : Nat)
    (h0 : buffer[idx]? = some base.G) (h1 : buffer[idx - 1]? = some base.G)
    (h2 : buffer[idx - 2]? = some base.G) (h3 : buffer[idx - 3]? = some base.A)
    (h4 : buffer[idx - 4]? = some base.T) (h5 : buffer[idx - 5]? = some base.T) :
    findBackRotF buffer (idx + 1) (List.range 6) = some (some 5) := by
  have e : ∀ b : Nat, idx + 1 - 1 - b = idx - b := fun b => by omega
  simp [findBackRotF, backRotMatchF, length_TELOMERE, e, h0, h1, h2, h3, h4, h5,
        show List.range 6 = [0, 1, 2, 3, 4, 5] from rfl,
        show telomereAt 6 = base.T from rfl, show telomereAt 7 = base.T from rfl,
        show telomereAt 8 = base.A from rfl, show telomereAt 9 = base.G from rfl,
        show telomereAt 10 = base.G from rfl, show telomereAt 11 = base.G from rfl]

theorem findBackRot_none_of_last_C {buffer : List base} (idx : Nat)
    (h0 : buffer[idx]? = some base.C) :
    findBackRotF buffer (idx + 1) (List.range 6) = some none := by
  have e : ∀ b : Nat, idx + 1 - 1 - b = idx - b := fun b => by omega
  simp [findBackRotF, backRotMatchF, length_TELOMERE, e, h0,
        show List.range 6 = [0, 1, 2, 3, 4, 5] from rfl,
        show telomereAt 6 = base.T from rfl, show telomereAt 7 = base.T from rfl,
        show telomereAt 8 = base.A from rfl, show telomereAt 9 = base.G from rfl,
        show telomereAt 10 = base.G from rfl, show telomereAt 11 = base.G from rfl]

/-! ### Indexing the K-periods / interior / M-periods decomposition -/

theorem telN_length (n : Nat) : (telN n).length = 6 * n := by
  induction n with
  | zero => rfl
  | succ m ih =>
    simp [telN, List.length_append, length_TELOMERE, ih]
    omega

theorem telN_getElem? : ∀ (n j : Nat), j < 6 * n → (telN n)[j]? = some (telomereAt j) := by
  intro n
  induction n with
  | zero => intro j h; omega
  | succ m ih =>
    intro j h
    by_cases hj : j < 6
    · simp only [telN]
      rw [List.getElem?_append_left (by rw [length_TELOMERE]; omega)]
      interval_cases j <;> rfl
    · simp only [telN]
      rw [List.getElem?_append_right (by rw [length_TELOMERE]; omega), length_TELOMERE,
          ih (j - 6) (by omega)]
      exact congrArg some (telomereAt_congr (by omega))

theorem seqTel_length (K M : Nat) (I : List base) :
    (telN K ++ I ++ telN M).length = 6 * K + I.length + 6 * M := by
  simp [List.length_append, telN_length]
  omega

theorem seqTel_front (K M : Nat) (I : List base) {j : Nat} (hj : j < 6 * K) :
    (telN K ++ I ++ telN M)[j]? = some (telomereAt j) := by
  rw [List.getElem?_append_left (by simp [List.length_append, telN_length]; omega),
      List.getElem?_append_left (by rw [telN_length]; omega)]
  exact telN_getElem? K j hj

theorem seqTel_mid (K M : Nat) (I : List base) {j : Nat} (hj : j < I.length) :
    (telN K ++ I ++ telN M)[6 * K + j]? = I[j]? := by
  rw [List.getElem?_append_left (by simp [List.length_append, telN_length]; omega),
      List.getElem?_append_right (by rw [telN_length]; omega), telN_length]
  congr 1
  omega

theorem seqTel_tail (K M : Nat) (I : List base) {m : Nat} (hm : m < 6 * M) :
    (telN K ++ I ++ telN M)[6 * K + I.length + m]? = some (telomereAt m) := by
  rw [List.getElem?_append_right (by simp only [List.length_append, telN_length]; omega)]
  have h : 6 * K + I.length + m - (telN K ++ I).length = m := by
    simp only [List.length_append, telN_length]
    omega
  rw [h]
  exact telN_getElem? M m hm

/-! ### Full evaluation of the trimmer on a K-periods / interior / M-periods stream -/

theorem getDataRangeBack_decomp (K M : Nat) (I seq : List base)
    (hIlast : I[I.length - 1]? = some base.C) (hIlen : 1 ≤ I.length)
    (hlen : seq.length = 6 * K + I.length + 6 * M)
    (hmidIdx : ∀ j, j < I.length → seq[6 * K + j]? = I[j]?)
    (htailIdx : ∀ m, m < 6 * M → seq[6 * K + I.length + m]? = some (telomereAt m)) :
    getDataRangeBack seq seq.length (6 * K) 0 = some (6 * K, 6 * K + I.length) := by
  have hlastC : seq[6 * K + I.length - 1]? = some base.C := by
    have h := hmidIdx (I.length - 1) (by omega)
    rw [show 6 * K + I.length - 1 = 6 * K + (I.length - 1) by omega]
    exact h.trans hIlast
  unfold getDataRangeBack
  rw [length_TELOMERE]
  by_cases htiny : seq.length < 6 * K + 6
  · rw [if_pos htiny]
    have hM : M = 0 := by omega
    subst hM
    rw [hlen]
    norm_num
  · rw [if_neg htiny]
    cases M with
    | zero =>
      have h0 : seq[seq.length - 1]? = some base.C := by
        rw [show seq.length - 1 = 6 * K + I.length - 1 by omega]
        exact hlastC
      have hrot : findBackRotF seq seq.length (List.range 6) = some none := by
        have h := findBackRot_none_of_last_C (seq.length - 1) h0
        rwa [show seq.length - 1 + 1 = seq.length by omega] at h
      simp only [hrot]
      have hstop : scanBackF seq (seq.length - 6 * K) seq.length 0 = some (seq.length, 0) :=
        scanBackF_stop (by omega) h0 (by decide)
      simp only [hstop]
      rw [hlen]
      norm_num
    | succ n =>
      have g : ∀ b : Nat, b < 6 → seq[seq.length - 1 - b]? =
          some (telomereAt (6 * (n + 1) - 1 - b)) := by
        intro b hb
        have h := htailIdx (6 * (n + 1) - 1 - b) (by omega)
        rw [show seq.length - 1 - b = 6 * K + I.length + (6 * (n + 1) - 1 - b) by omega]
        exact h
      have h0 : seq[seq.length - 1]? = some base.G := by
        have h := g 0 (by omega)
        rw [Nat.sub_zero] at h
        rw [h]
        exact congrArg some ((telomereAt_congr (by omega)).trans
          (show telomereAt 5 = base.G from rfl))
      have h1 : seq[seq.length - 1 - 1]? = some base.G := by
        rw [g 1 (by omega)]
        exact congrArg some ((telomereAt_congr (by omega)).trans
          (show telomereAt 4 = base.G from rfl))
      have h2 : seq[seq.length - 1 - 2]? = some base.G := by
        rw [g 2 (by omega)]
        exact congrArg some ((telomereAt_congr (by omega)).trans
          (show telomereAt 3 = base.G from rfl))
      have h3 : seq[seq.length - 1 - 3]? = some base.A := by
        rw [g 3 (by omega)]
        exact congrArg some ((telomereAt_congr (by omega)).trans
          (show telomereAt 2 = base.A from rfl))
      have h4 : seq[seq.length - 1 - 4]? = some base.T := by
        rw [g 4 (by omega)]
        exact congrArg some ((telomereAt_congr (by omega)).trans
          (show telomereAt 1 = base.T from rfl))
      have h5 : seq[seq.length - 1 - 5]? = some base.T := by
        rw [g 5 (by omega)]
        exact congrArg some ((telomereAt_congr (by omega)).trans
          (show telomereAt 0 = base.T from rfl))
      have hrot : findBackRotF seq seq.length (List.range 6) = some (some 5) := by
        have h := findBackRot_of_telomere_tail (seq.length - 1) h0 h1 h2 h3 h4 h5
        rwa [show seq.length - 1 + 1 = seq.length by omega] at h
      simp only [hrot]
      have hadv : scanBackF seq (seq.length - 6 - 6 * K) (seq.length - 6) 5
          = scanBackF seq (seq.length - 6 - 6 * K - 6 * n) (seq.length - 6 - 6 * n)
              ((5 + 5 * (6 * n)) % 6) := by
        apply scanBackF_advance (6 * n) _ _ _ (by omega) (by omega)
        intro i hi
        have h := htailIdx (6 * (n + 1) - 7 - i) (by omega)
        rw [show seq.length - 6 - 1 - i = 6 * K + I.length + (6 * (n + 1) - 7 - i) by omega]
        rw [h]
        exact congrArg some (telomereAt_congr (by omega))
      have hstop : scanBackF seq (seq.length - 6 - 6 * K - 6 * n)
          (seq.length - 6 - 6 * n) ((5 + 5 * (6 * n)) % 6)
          = some (6 * K + I.length, 5) := by
        rw [show (5 + 5 * (6 * n)) % 6 = 5 by omega,
            show seq.length - 6 - 6 * n = 6 * K + I.length by omega]
        exact scanBackF_stop (by omega) hlastC (by decide)
      simp only [hadv, hstop]

theorem getDataRange_decomp (K M : Nat) (I seq : List base)
    (hIhead : I[0]? = some base.C) (hIlast : I[I.length - 1]? = some base.C)
    (hIlen : 1 ≤ I.length)
    (hlen : seq.length = 6 * K + I.length + 6 * M)
    (hfrontIdx : ∀ j, j < 6 * K → seq[j]? = some (telomereAt j))
    (hmidIdx : ∀ j, j < I.length → seq[6 * K + j]? = I[j]?)
    (htailIdx : ∀ m, m < 6 * M → seq[6 * K + I.length + m]? = some (telomereAt m)) :
    getDataRange seq seq.length = some (6 * K, 6 * K + I.length) := by
  have hseq6K : seq[6 * K]? = some base.C := by
    have h := hmidIdx 0 (by omega)
    rw [Nat.add_zero] at h
    exact h.trans hIhead
  by_cases hshort : seq.length < 6
  · have hK : K = 0 := by omega
    have hM : M = 0 := by omega
    subst hK; subst hM
    unfold getDataRange
    rw [if_pos (by rw [length_TELOMERE]; exact hshort), hlen]
    norm_num
  · push_neg at hshort
    have hback := getDataRangeBack_decomp K M I seq hIlast hIlen hlen hmidIdx htailIdx
    cases K with
    | zero =>
      have hfr : findFrontRot seq = none :=
        findFrontRot_none_of_head_C (by simpa using hseq6K)
      have hstop : scanFrontF seq (seq.length - 0) 0 0 = some (0, 0) :=
        scanFrontF_stop (by omega) (by simpa using hseq6K) (by decide)
      simp only [getDataRange, length_TELOMERE, List.take_length, hfr, hstop]
      rw [if_neg (by omega)]
      simpa using hback
    | succ n =>
      have hb : ∀ b : Nat, b < 6 → seq[b]? = some (telomereAt b) := fun b h =>
        hfrontIdx b (by omega)
      have hfr : findFrontRot seq = some 0 :=
        findFrontRot_of_telomere_head (hb 0 (by omega)) (hb 1 (by omega))
          (hb 2 (by omega)) (hb 3 (by omega)) (hb 4 (by omega)) (hb 5 (by omega))
      have hadv : scanFrontF seq (seq.length - 6) 6 0
          = scanFrontF seq (seq.length - 6 - 6 * n) (6 + 6 * n) ((0 + 6 * n) % 6) := by
        apply scanFrontF_advance (6 * n) _ _ _ (by omega) (by omega)
        intro i hi
        rw [hfrontIdx (6 + i) (by omega)]
        exact congrArg some (telomereAt_congr (by omega))
      have hstop : scanFrontF seq (seq.length - 6 - 6 * n) (6 + 6 * n) ((0 + 6 * n) % 6)
          = some (6 * (n + 1), 0) := by
        rw [show (0 + 6 * n) % 6 = 0 by omega, show 6 + 6 * n = 6 * (n + 1) by omega]
        exact scanFrontF_stop (by omega) hseq6K (by decide)
      simp only [getDataRange, length_TELOMERE, List.take_length, hfr, hadv, hstop]
      rw [if_neg (by omega)]
      exact hback

/-! ### Bounds and totality of the trimmer; behaviour of the compare loop -/

/-- Whatever state the back half starts from, any range it returns stays
    within `[data_start, data_end]` and starts at `data_start`. -/
theorem getDataRangeBack_bounds {buffer : List base} {dEnd ds ph s e : Nat}
    (hds : ds ≤ dEnd) (h : getDataRangeBack buffer dEnd ds ph = some (s, e)) :
    s = ds ∧ ds ≤ e ∧ e ≤ dEnd := by
  unfold getDataRangeBack at h
  rw [length_TELOMERE] at h
  by_cases htiny : dEnd < ds + 6
  · rw [if_pos htiny] at h
    simp at h
    omega
  · rw [if_neg htiny] at h
    cases hrot : findBackRotF buffer dEnd (List.range 6) with
    | none =>
      simp only [hrot] at h
      exact Option.noConfusion h
    | some rot =>
      simp only [hrot] at h
      cases rot with
      | none =>
        cases hscan : scanBackF buffer (dEnd - ds) dEnd ph with
        | none =>
          simp only [hscan] at h
          exact Option.noConfusion h
        | some p =>
          obtain ⟨de, ph'⟩ := p
          simp only [hscan] at h
          obtain ⟨hs, he⟩ := Prod.mk.injEq .. ▸ (Option.some.inj h)
          have hb := scanBackF_bounds (dEnd - ds) dEnd ph de ph' hscan
          omega
      | some t =>
        cases hscan : scanBackF buffer (dEnd - 6 - ds) (dEnd - 6) t with
        | none =>
          simp only [hscan] at h
          exact Option.noConfusion h
        | some p =>
          obtain ⟨de, ph'⟩ := p
          simp only [hscan] at h
          obtain ⟨hs, he⟩ := Prod.mk.injEq .. ▸ (Option.some.inj h)
          have hb := scanBackF_bounds (dEnd - 6 - ds) (dEnd - 6) t de ph' hscan
          omega

/-- Any range `getDataRange` returns, over any stream and any chunk size,
    satisfies `start ≤ end ≤ total length in bases`. -/
theorem getDataRange_bounds {seq : List base} {chunk s e : Nat}
    (h : getDataRange seq chunk = some (s, e)) : s ≤ e ∧ e ≤ seq.length := by
  unfold getDataRange at h
  rw [length_TELOMERE] at h
  by_cases hshort : seq.length < 6
  · rw [if_pos hshort] at h
    simp at h
    omega
  · rw [if_neg hshort] at h
    cases hfr : findFrontRot (seq.take chunk) with
    | none =>
      simp only [hfr] at h
      cases hscan : scanFrontF (seq.take chunk) (seq.length - 0) 0 0 with
      | none =>
        simp only [hscan] at h
        exact Option.noConfusion h
      | some p =>
        obtain ⟨ds, ph⟩ := p
        simp only [hscan] at h
        have hfb := scanFrontF_bounds (seq.length - 0) 0 0 ds ph hscan
        have hb := getDataRangeBack_bounds (by omega) h
        omega
    | some t =>
      simp only [hfr] at h
      cases hscan : scanFrontF (seq.take chunk) (seq.length - 6) 6 t with
      | none =>
        simp only [hscan] at h
        exact Option.noConfusion h
      | some p =>
        obtain ⟨ds, ph⟩ := p
        simp only [hscan] at h
        have hfb := scanFrontF_bounds (seq.length - 6) 6 t ds ph hscan
        have hb := getDataRangeBack_bounds (by omega) h
        omega

/-- The back half cannot go out of bounds when the chunk holds everything up
    to `data_end`. -/
theorem getDataRangeBack_isSome {buffer : List base} {dEnd ds ph : Nat}
    (hlen : dEnd ≤ buffer.length) :
    (getDataRangeBack buffer dEnd ds ph).isSome := by
  unfold getDataRangeBack
  rw [length_TELOMERE]
  by_cases htiny : dEnd < ds + 6
  · rw [if_pos htiny]
    simp
  · rw [if_neg htiny]
    have hfb : (findBackRotF buffer dEnd (List.range 6)).isSome :=
      findBackRotF_isSome buffer dEnd _ (by omega)
    obtain ⟨rot, hrot⟩ := Option.isSome_iff_exists.mp hfb
    simp only [hrot]
    cases rot with
    | none =>
      have hs := scanBackF_isSome buffer (dEnd - ds) dEnd ph (by omega) (by omega)
      obtain ⟨⟨de, p2⟩, hscan⟩ := Option.isSome_iff_exists.mp hs
      simp only [hscan]
      simp
    | some t =>
      have hs := scanBackF_isSome buffer (dEnd - 6 - ds) (dEnd - 6) t (by omega) (by omega)
      obtain ⟨⟨de, p2⟩, hscan⟩ := Option.isSome_iff_exists.mp hs
      simp only [hscan]
      simp

/-- When the chunk delivered by `read()` covers the whole sequence, the
    trimmer never indexes out of bounds: it returns a range. -/
theorem getDataRange_isSome {seq : List base} {chunk : Nat}
    (hchunk : seq.length ≤ chunk) : (getDataRange seq chunk).isSome := by
  unfold getDataRange
  rw [length_TELOMERE, List.take_of_length_le hchunk]
  by_cases hshort : seq.length < 6
  · rw [if_pos hshort]
    simp
  · rw [if_neg hshort]
    cases hfr : findFrontRot seq with
    | none =>
      simp only [hfr]
      have hs := scanFrontF_isSome seq (seq.length - 0) 0 0 (by omega)
      obtain ⟨⟨ds, ph⟩, hscan⟩ := Option.isSome_iff_exists.mp hs
      simp only [hscan]
      exact getDataRangeBack_isSome (by omega)
    | some t =>
      simp only [hfr]
      have hs := scanFrontF_isSome seq (seq.length - 6) 6 t (by omega)
      obtain ⟨⟨ds, ph⟩, hscan⟩ := Option.isSome_iff_exists.mp hs
      simp only [hscan]
      exact getDataRangeBack_isSome (by omega)

/-- One loop iteration of `compare` either skips or passes the accumulator
    through unchanged (the differencer is unimplemented): any `some` result
    is the unchanged accumulator. -/
theorem compareStep_some {a b : Person} {acc acc' : List Difference} {i : Nat}
    (h : compareStep a b acc i = some acc') : acc' = acc := by
  unfold compareStep at h
  dsimp only [] at h
  split at h
  · exact (Option.some.inj h).symm
  · cases hga : getDataRange (a.chromosome i).seqBases (a.chromosome i).chunk with
    | none =>
      simp only [hga] at h
      exact Option.noConfusion h
    | some p =>
      simp only [hga] at h
      cases hgb : getDataRange (b.chromosome i).seqBases (b.chromosome i).chunk with
      | none =>
        simp only [hgb] at h
        exact Option.noConfusion h
      | some q =>
        simp only [hgb] at h
        exact (Option.some.inj h).symm

/-- Folding `compareStep` never grows the accumulator: a `some` result is the
    initial accumulator. -/
theorem foldlM_compareStep_eq {a b : Person} :
    ∀ (idxs : List Nat) (acc r : List Difference),
    List.foldlM (compareStep a b) acc idxs = some r → r = acc := by
  intro idxs
  induction idxs with
  | nil =>
    intro acc r h
    simp [List.foldlM_nil] at h
    exact h.symm
  | cons i is ih =>
    intro acc r h
    rw [List.foldlM_cons] at h
    cases hstep : compareStep a b acc i with
    | none =>
      rw [hstep] at h
      exact Option.noConfusion h
    | some acc' =>
      rw [hstep] at h
      simp only [Option.bind_eq_bind, Option.some_bind] at h
      rw [ih acc' r h, compareStep_some hstep]

/-- If every step succeeds with the unchanged accumulator, the whole fold
    does. -/
theorem foldlM_compareStep_all {a b : Person} :
    ∀ (idxs : List Nat) (acc : List Difference),
    (∀ i, i ∈ idxs → compareStep a b acc i = some acc) →
    List.foldlM (compareStep a b) acc idxs = some acc := by
  intro idxs
  induction idxs with
  | nil => intro acc _; simp [List.foldlM_nil]
  | cons i is ih =>
    intro acc h
    rw [List.foldlM_cons, h i (by simp)]
    simp only [Option.bind_eq_bind, Option.some_bind]
    exact ih acc fun j hj => h j (by simp [hj])

/-- A step whose two streams are chunk-covered succeeds (with the accumulator
    unchanged). -/
theorem compareStep_some_of_covered {a b : Person} {acc : List Difference} {i : Nat}
    (hA : ((a.chromosome i).seqBases).length ≤ (a.chromosome i).chunk)
    (hB : ((b.chromosome i).seqBases).length ≤ (b.chromosome i).chunk) :
    compareStep a b acc i = some acc := by
  unfold compareStep
  dsimp only []
  split
  · rfl
  · obtain ⟨p, hp⟩ := Option.isSome_iff_exists.mp (getDataRange_isSome hA)
    obtain ⟨q, hq⟩ := Option.isSome_iff_exists.mp (getDataRange_isSome hB)
    simp only [hp, hq]

/-! ### Claims -/


/-- C1: the range returned by getDataRange is NOT independent of the chunk
    size the Helix Stream delivers its data in.  On the repository's own
    small-chunk test fixture (44 bases), the whole-sequence chunk yields the
    range (20, 30), while a 4-base chunk (the test's `fake_stream(data, 1)`)
    makes the scan index past the chunk's end — undefined behaviour in the
    C++, `none` in the model — instead of re-invoking `read()`.  The test file
    itself warns that "this code reads out-of-bounds memory". -/

theorem C1_chunk_size_dependence :
    getDataRange c1_input 44 = some (20, 30) ∧ getDataRange c1_input 4 = none := by
  decide

/-- C2: the claim that every index `getDataRange` applies to the chunk
    returned by `read()` stays within that chunk's bounds is violated by the
    code: with the spec's chunk size of one base, the forward scan dereferences
    `buffer[6]` on a 1-base chunk (out of bounds, modelled as `none`). -/

theorem C2_small_chunk_out_of_bounds : getDataRange c1_input 1 = none := by decide

/-- C3 counterexample: one full leading period followed by the interior
    `TCCCCC` (which does not begin or end with a further full pattern period)
    is trimmed to start = 7, not start = 6K = 6 as the claim states: the
    forward scan also consumes the partial pattern continuation `T` at the
    start of the interior. -/

theorem C3_counterexample :
    getDataRange c3_counter_input 12 = some (7, 12) ∧
    getDataRange c3_counter_input 12 ≠ some (6, 12) := by decide

/-- C3 as amended: for a sequence of K full leading periods, then nonempty
    interior data whose first and last bases are C (a base that occurs nowhere
    in the telomere pattern, so the interior ends neither with a partial
    pattern continuation nor with a rotation match), then M full trailing
    periods, delivered in one chunk, getDataRange returns start = 6K and
    end = total_length - 6M; in particular K = M = 0 leaves the sequence
    unchanged, and pattern-resembling bases strictly inside the interior are
    never trimmed. -/
theorem C3_roundtrip_amended (K M : Nat) (I : List base)
    (hhead : I.head? = some base.C) (hlast : I.getLast? = some base.C) :
    getDataRange (telN K ++ I ++ telN M) (telN K ++ I ++ telN M).length
      = some (6 * K, 6 * K + I.length) := by
  have hIlen : 1 ≤ I.length := by
    cases I with
    | nil => simp at hhead
    | cons a l => simp
  apply getDataRange_decomp K M I
  · rw [← List.head?_eq_getElem?]; exact hhead
  · rw [← List.getLast?_eq_getElem?]; exact hlast
  · exact hIlen
  · exact seqTel_length K M I
  · intro j hj; exact seqTel_front K M I hj
  · intro j hj; exact seqTel_mid K M I hj
  · intro m hm; exact seqTel_tail K M I hm

/-- C3 witness: K = 1, M = 1, interior [C]: TTAGGG C TTAGGG trims to (6, 7). -/
theorem C3_witness :
    getDataRange (telN 1 ++ [base.C] ++ telN 1) 13 = some (6, 7) :=
  C3_roundtrip_amended 1 1 [base.C] rfl rfl

/-- C4: the claim that a head matching no full rotation of TTAGGG leaves
    start = 0 is violated by the code: on `TCCCCCCC` no rotation matches the
    head (first conjunct), yet the forward while-loop still runs from the
    stale phase 0 and trims the leading `T`, returning start = 1. -/

theorem C4_trims_without_full_rotation_match :
    findFrontRot c4_input = none ∧ getDataRange c4_input 8 = some (1, 8) := by decide

/-- C5: with L = size() * packed factor, getSex returns X exactly strictly
    inside (4/5*156000000, 5/4*156000000) = (124800000, 195000000), Y strictly
    inside (45600000, 71250000), and MAX (Unknown) when at or outside both
    bands; in particular L = 0 and L = 100000000 (size 25000000) are MAX. -/

theorem C5_getSex_bands (sz : Nat) :
    ((124800000 < sz * 4 ∧ sz * 4 < 195000000) → getSex sz = SexChromosome.X) ∧
    ((45600000 < sz * 4 ∧ sz * 4 < 71250000) → getSex sz = SexChromosome.Y) ∧
    ((¬(124800000 < sz * 4 ∧ sz * 4 < 195000000) ∧
      ¬(45600000 < sz * 4 ∧ sz * 4 < 71250000)) → getSex sz = SexChromosome.MAX) ∧
    getSex 0 = SexChromosome.MAX ∧ getSex 25000000 = SexChromosome.MAX := by
  have e1 : 4 * X_CHROMOSOME_LEN / 5 = 124800000 := by norm_num [X_CHROMOSOME_LEN]
  have e2 : 5 * X_CHROMOSOME_LEN / 4 = 195000000 := by norm_num [X_CHROMOSOME_LEN]
  have e3 : 4 * Y_CHROMOSOME_LEN / 5 = 45600000 := by norm_num [Y_CHROMOSOME_LEN]
  have e4 : 5 * Y_CHROMOSOME_LEN / 4 = 71250000 := by norm_num [Y_CHROMOSOME_LEN]
  refine ⟨?_, ?_, ?_, by decide, by decide⟩ <;>
    · intro h
      unfold getSex packed_size
      rw [e1, e2, e3, e4]
      dsimp only []
      split_ifs <;> first | rfl | omega

/-- C5 witness: a stream of 39000000 units (L = 156000000) classifies X. -/

theorem C5_witness : getSex 39000000 = SexChromosome.X :=
  (C5_getSex_bands 39000000).1 (by norm_num)

/-- C6 counterexample: at exactly the band endpoint L = 4/5 * 156000000
    = 124800000 (size 31200000 units), getSex returns MAX, not X as the
    claim's closed band would require: the comparisons are strict. -/

theorem C6_counterexample :
    getSex 31200000 = SexChromosome.MAX ∧ getSex 31200000 ≠ SexChromosome.X := by
  decide

/-- C6 as amended: the classification bands are open intervals: all four
    band endpoints (L = 124800000, 195000000, 45600000, 71250000) classify as
    MAX (Unknown), while lengths strictly inside classify as X resp. Y. -/

theorem C6_bands_open_amended :
    getSex 31200000 = SexChromosome.MAX ∧ getSex 48750000 = SexChromosome.MAX ∧
    getSex 11400000 = SexChromosome.MAX ∧ getSex 17812500 = SexChromosome.MAX ∧
    getSex 39000000 = SexChromosome.X ∧ getSex 14250000 = SexChromosome.Y := by
  decide

/-- C7: compare fails with the InvalidInput error exactly when at least one
    person reports a chromosome count different from 23, and this failure is
    decided before any chromosome stream is obtained or read: it is the same
    for every assignment of chromosome streams to the two persons.  When both
    report 23 chromosomes, compare never produces the InvalidInput error. -/

theorem C7_invalid_input_iff (a b : Person) :
    (compare a b = some (Except.error "chromosome data does not match expected size") ↔
      (a.chromosomes ≠ 23 ∨ b.chromosomes ≠ 23)) ∧
    ((a.chromosomes ≠ 23 ∨ b.chromosomes ≠ 23) →
      ∀ f g : Nat → HelixStream,
        compare ⟨a.chromosomes, f⟩ ⟨b.chromosomes, g⟩ =
          some (Except.error "chromosome data does not match expected size")) := by
  constructor
  · constructor
    · intro h
      by_contra hc
      push_neg at hc
      unfold compare at h
      rw [if_neg (by simp [NUM_CHROMOSOMES, hc.1, hc.2])] at h
      cases hf : List.foldlM (compareStep a b) [] (List.range NUM_CHROMOSOMES) with
      | none =>
        rw [hf] at h
        exact Option.noConfusion h
      | some r =>
        rw [hf] at h
        simp at h
    · intro h
      unfold compare
      rw [if_pos (by simpa [NUM_CHROMOSOMES] using h)]
  · intro h f g
    unfold compare
    rw [if_pos (by simpa [NUM_CHROMOSOMES] using h)]

/-- C7 witness: a 22-chromosome person against a 23-chromosome person. -/

theorem C7_witness :
    compare personEmpty22 personEmpty =
      some (Except.error "chromosome data does not match expected size") :=
  (C7_invalid_input_iff personEmpty22 personEmpty).1.mpr (by decide)

/-- C8: whenever the sex classifications of the two persons' chromosome 23
    differ or either is MAX (Unknown), the list compare returns contains no
    Difference record with chromosome index 22: filtering it for records
    tagged with the sex-chromosome index yields the empty list (indeed the
    unfinished differencer emits no record at all), regardless of sequence
    content. -/

theorem C8_sex_skip_no_difference (a b : Person) (l : List Difference)
    (_hsex : getSex (a.chromosome 22).size ≠ getSex (b.chromosome 22).size ∨
            getSex (a.chromosome 22).size = SexChromosome.MAX ∨
            getSex (b.chromosome 22).size = SexChromosome.MAX)
    (hcmp : compare a b = some (Except.ok l)) :
    l.filter (fun d => d.chromosome_idx == 22) = [] := by
  have hl : l = [] := by
    unfold compare at hcmp
    by_cases hc : a.chromosomes ≠ NUM_CHROMOSOMES ∨ b.chromosomes ≠ NUM_CHROMOSOMES
    · rw [if_pos hc] at hcmp
      exact Except.noConfusion (Option.some.inj hcmp)
    · rw [if_neg hc] at hcmp
      cases hf : List.foldlM (compareStep a b) [] (List.range NUM_CHROMOSOMES) with
      | none =>
        rw [hf] at hcmp
        exact Option.noConfusion hcmp
      | some r =>
        rw [hf] at hcmp
        simp only [Option.map_some'] at hcmp
        have h1 := foldlM_compareStep_eq (List.range NUM_CHROMOSOMES) [] r hf
        have h2 : r = l := Except.ok.inj (Option.some.inj hcmp)
        rw [← h2, h1]
  subst hl
  rfl

/-- C8 witness: two all-empty 23-chromosome persons; both sexes are MAX and
    compare returns the empty list, whose index-22 filtering is empty. -/

theorem C8_witness :
    ([] : List Difference).filter (fun d => d.chromosome_idx == 22) = [] :=
  C8_sex_skip_no_difference personEmpty personEmpty [] (Or.inr (Or.inl (by decide))) rfl

/-- C9: any range getDataRange returns satisfies 0 ≤ start ≤ end ≤ total
    length in bases (for every stream and chunk size); the empty stream yields
    [0, 0), and any sequence shorter than one 6-base period is returned whole
    and unchanged. -/

theorem C9_range_invariant (seq : List base) (chunk : Nat) :
    (∀ s e, getDataRange seq chunk = some (s, e) → s ≤ e ∧ e ≤ seq.length) ∧
    (seq = [] → getDataRange seq chunk = some (0, 0)) ∧
    (seq.length < 6 → getDataRange seq chunk = some (0, seq.length)) := by
  refine ⟨fun s e h => getDataRange_bounds h, ?_, ?_⟩
  · intro h
    subst h
    rfl
  · intro h
    unfold getDataRange
    dsimp only []
    rw [length_TELOMERE, if_pos h]

/-- C9 witness: the three-base sequence CCC is returned whole. -/

theorem C9_witness : getDataRange [base.C, base.C, base.C] 128 = some (0, 3) :=
  (C9_range_invariant [base.C, base.C, base.C] 128).2.2 (by decide)

/-- C10 counterexample: a pair of valid 23-chromosome persons for which
    compare does NOT return the empty list: person A's chromosome 0 is the
    44-base fixture served in 4-base chunks, so the trimmer indexes past the
    chunk's end (undefined behaviour, modelled `none`) before the loop can
    finish. -/

theorem C10_counterexample :
    personSmallChunk.chromosomes = 23 ∧ personEmpty.chromosomes = 23 ∧
    compare personSmallChunk personEmpty = none ∧
    (none : Option (Except String (List Difference))) ≠ some (Except.ok []) :=
  ⟨rfl, rfl, rfl, fun h => Option.noConfusion h⟩

/-- C10 as amended: for valid persons, any Difference list compare returns
    is empty (the sequence-differencing step is never performed), and when
    every stream's chunk covers its whole sequence compare does return the
    empty list. -/

theorem C10_compare_reports_nothing_amended (a b : Person)
    (ha : a.chromosomes = 23) (hb : b.chromosomes = 23) :
    (∀ l, compare a b = some (Except.ok l) → l = []) ∧
    ((∀ i, i < 23 →
        ((a.chromosome i).seqBases).length ≤ (a.chromosome i).chunk ∧
        ((b.chromosome i).seqBases).length ≤ (b.chromosome i).chunk) →
      compare a b = some (Except.ok [])) := by
  have hcond : ¬(a.chromosomes ≠ NUM_CHROMOSOMES ∨ b.chromosomes ≠ NUM_CHROMOSOMES) := by
    simp [NUM_CHROMOSOMES, ha, hb]
  constructor
  · intro l h
    unfold compare at h
    rw [if_neg hcond] at h
    cases hf : List.foldlM (compareStep a b) [] (List.range NUM_CHROMOSOMES) with
    | none =>
      rw [hf] at h
      exact Option.noConfusion h
    | some r =>
      rw [hf] at h
      simp only [Option.map_some'] at h
      have h1 := foldlM_compareStep_eq (List.range NUM_CHROMOSOMES) [] r hf
      have h2 : r = l := Except.ok.inj (Option.some.inj h)
      rw [← h2, h1]
  · intro hcov
    unfold compare
    rw [if_neg hcond,
        foldlM_compareStep_all (List.range NUM_CHROMOSOMES) [] ?_]
    · rfl
    · intro i hi
      have hi' : i < 23 := by simpa [NUM_CHROMOSOMES] using List.mem_range.mp hi
      exact compareStep_some_of_covered (hcov i hi').1 (hcov i hi').2

/-- C10 witness: two all-empty 23-chromosome persons compare to the empty
    list. -/

theorem C10_witness : compare personEmpty personEmpty = some (Except.ok []) :=
  (C10_compare_reports_nothing_amended personEmpty personEmpty rfl rfl).2 (fun _ _ => ⟨Nat.le_refl 0, Nat.le_refl 0⟩)

end dna
